import Mathlib

/-!
Verification development for the obsidian-copilot conversation subsystem.

The definitions below are a shallow embedding of the repository's
TypeScript sources: the file-parser registry (`FileParserManager` and the
individual parsers), the inline message editor's context merge
(`InlineMessageEditor.handleEditSave`), the active-file tracker
(`state/activeFileTracker.ts`), and — modelled from the specification,
since their implementation files are not part of the provided sources —
the Message Store and Conversation Orchestrator.
-/

namespace Copilot

/-! ## File parser registry (src FileParserManager) -/

/-- Kinds of registered parsers, one per parser class in the source. -/
inductive ParserKind where
  | markdown
  | docs4llm
  | pdfParserKind
  | canvas
deriving DecidableEq, Repr

/-- Extensions supported by `MarkdownParser` in the source. -/
def MarkdownParser.supportedExtensions : List String := ["md"]

/-- Extensions supported by `PDFParser` in the source. -/
def PDFParser.supportedExtensions : List String := ["pdf"]

/-- Extensions supported by `CanvasParser` in the source. -/
def CanvasParser.supportedExtensions : List String := ["canvas"]

/-- Extensions supported by `Docs4LLMParser` in the source. -/
def Docs4LLMParser.supportedExtensions : List String :=
  ["pdf", "docx", "txt", "md", "html", "htm", "csv", "json"]

/-- The `parsers` map of `FileParserManager`, embedded as a lookup
function from extension to the registered parser kind. -/
def ParserMap := String → Option ParserKind

/-- Embeds `FileParserManager.registerParser`: `Map.set` for each
supported extension, later registrations overwriting earlier ones. -/
def registerParser (m : ParserMap) (k : ParserKind) (exts : List String) : ParserMap :=
  exts.foldl (fun acc ext => fun e => if e = ext then some k else acc e) m

/-- State of a `FileParserManager` instance. -/
structure FileParserManager where
  parsers : ParserMap
  isProjectMode : Bool

/-- Embeds the `FileParserManager` constructor: registers
`MarkdownParser`, then `Docs4LLMParser`, then (only when not in project
mode) `PDFParser`, then `CanvasParser`. -/
def FileParserManager.create (isProjectMode : Bool) : FileParserManager :=
  let m0 : ParserMap := fun _ => none
  let m1 := registerParser m0 .markdown MarkdownParser.supportedExtensions
  let m2 := registerParser m1 .docs4llm Docs4LLMParser.supportedExtensions
  let m3 := if isProjectMode then m2
            else registerParser m2 .pdfParserKind PDFParser.supportedExtensions
  let m4 := registerParser m3 .canvas CanvasParser.supportedExtensions
  ⟨m4, isProjectMode⟩

/-- Embeds `FileParserManager.supportsExtension`. -/
def FileParserManager.supportsExtension (fm : FileParserManager) (ext : String) : Bool :=
  (fm.parsers ext).isSome

/-- Embeds the dispatch step of `FileParserManager.parseFile`: look up
the parser for the file's extension, throwing when none is found. -/
def FileParserManager.parseDispatch (fm : FileParserManager) (ext : String) :
    Except String ParserKind :=
  match fm.parsers ext with
  | none => .error ("No parser found for file type: " ++ ext)
  | some p => .ok p

/-! ## PDF parsing with cache (src PDFParser.parseFile) -/

/-- Lookup in a path-keyed cache, embedded as an association list. -/
def cacheGet (c : List (String × String)) (p : String) : Option String :=
  (c.find? (fun e => e.1 = p)).map (·.2)

/-- Store an entry in a path-keyed cache. -/
def cacheSet (c : List (String × String)) (p v : String) : List (String × String) :=
  (p, v) :: c

/-- Outcome of one `parseFile` call: the returned text, the cache state
afterwards, and the list of file paths whose current content was read
during the call. -/
structure ParseOutcome where
  text : String
  cache : List (String × String)
  readPaths : List String
deriving DecidableEq, Repr

/-- Embeds `PDFParser.parseFile`. The PDF content cache (`PDFCache`, an
external content cache outside the provided sources) is modelled as a
path-keyed store honoring get-after-set. On a cache hit the cached
response is returned without reading the file; on a miss the binary is
read, converted via `pdf4llm` (`none` modelling a conversion failure,
which the source catches and turns into an inline error marker), and the
result cached. -/
def PDFParser.parseFile (pdf4llm : String → Option String) (vault : String → String)
    (cache : List (String × String)) (path basename : String) : ParseOutcome :=
  match cacheGet cache path with
  | some cachedResponse => ⟨cachedResponse, cache, []⟩
  | none =>
    let binaryContent := vault path
    match pdf4llm binaryContent with
    | some resp => ⟨resp, cacheSet cache path resp, [path]⟩
    | none =>
      ⟨"[Error: Could not extract content from PDF " ++ basename ++ "]", cache, [path]⟩

/-! ## Docs4LLM parsing (src Docs4LLMParser.parseFile) -/

/-- Embeds `Docs4LLMParser.parseFile`. `hasProject` is
`Boolean(this.currentProject)`; the project context cache is consulted
only in that case. `docs4llm` models
`ExternalServicesClient.docs4llm`, which returns the extracted text and
returns the empty string on an extraction failure (its own catch
branch); an empty response makes `parseFile` throw
"Empty response from docs4llm API", and the final catch rethrows, so the
call rejects. -/
def Docs4LLMParser.parseFile (docs4llm : String → String) (hasProject : Bool)
    (projCache : List (String × String)) (vault : String → String) (path : String) :
    Except String (String × List (String × String)) :=
  match (if hasProject then cacheGet projCache path else none) with
  | some cachedContent => .ok (cachedContent, projCache)
  | none =>
    let binaryContent := vault path
    let response := docs4llm binaryContent
    if response = "" then
      .error "Empty response from docs4llm API"
    else
      .ok (response, if hasProject then cacheSet projCache path response else projCache)

/-! ## Inline message editor context merge (src InlineMessageEditor.handleEditSave) -/

/-- The `ChatMessage["context"]` record: attached references of a
message. Notes are identified by path. -/
structure MessageContext where
  notes : List String
  urls : List String
  tags : List String
  folders : List String
  selectedTextContexts : List String
deriving DecidableEq, Repr

/-- The context shape supplied by `ChatInput` in edit mode: only notes,
urls and folders. -/
structure EditedContext where
  notes : List String
  urls : List String
  folders : List String
deriving DecidableEq, Repr

/-- Embeds `InlineMessageEditor.handleEditSave`: builds the context
passed to `onSave` from the editor-supplied `context` and the pre-edit
`initialContext`. -/
def handleEditSave (initialContext : Option MessageContext) (context : EditedContext) :
    MessageContext :=
  { notes := context.notes
    urls := context.urls
    tags := (initialContext.map (·.tags)).getD []
    folders := context.folders
    selectedTextContexts := (initialContext.map (·.selectedTextContexts)).getD [] }

/-! ## Message Store (modelled from the spec) -/

/-- Modelled from the spec: roles of a Message (§3). -/
inductive Role where
  | user
  | assistant
  | system
deriving DecidableEq, Repr

/-- Modelled from the spec: statuses of a Message (§3). -/
inductive Status where
  | pending
  | streaming
  | complete
  | error
deriving DecidableEq, Repr

/-- Modelled from the spec: the Message record (§3). Ids are opaque,
modelled as naturals. -/
structure Message where
  id : Nat
  role : Role
  displayText : String
  processedText : String
  context : MessageContext
  status : Status
  sequence : Nat
deriving DecidableEq, Repr

/-- Modelled from the spec: the Message Store of one Conversation —
an ordered sequence of messages plus the next sequence number (§3,
§4.1); its implementation file is not among the provided sources. -/
structure Store where
  messages : List Message
  nextSeq : Nat
deriving DecidableEq, Repr

/-- Modelled from the spec: typed structural failures (§7). -/
inductive StoreErr where
  | invalidState
  | notFound
deriving DecidableEq, Repr

/-- Modelled from the spec: a freshly created Store is empty. -/
def Store.empty : Store := ⟨[], 0⟩

/-- Modelled from the spec: `get(id)` lookup. -/
def Store.get? (st : Store) (id : Nat) : Option Message :=
  st.messages.find? (fun m => m.id = id)

/-- Mutate the message with the given id in place, leaving all others
untouched. -/
def Store.modifyMsg (st : Store) (id : Nat) (f : Message → Message) : Store :=
  ⟨st.messages.map (fun m => if m.id = id then f m else m), st.nextSeq⟩

/-- Modelled from the spec: `append(message)` adds a Message at the next
sequence, failing with `InvalidStateError` when the id already exists
(§4.1). -/
def Store.append (st : Store) (m : Message) : Except StoreErr Store :=
  if st.messages.any (fun x => x.id = m.id) then .error .invalidState
  else .ok ⟨st.messages ++ [{ m with sequence := st.nextSeq }], st.nextSeq + 1⟩

/-- Modelled from the spec: `truncateFrom(sequence)` removes every
Message with sequence at or above the cut in one atomic step (§4.1);
the next append reuses the lowest removed sequence so that sequences
stay contiguous (§3). -/
def Store.truncateFrom (st : Store) (s : Nat) : Store :=
  ⟨st.messages.filter (fun m => m.sequence < s), min st.nextSeq s⟩

/-- Modelled from the spec: `remove(id)` deletes exactly one Message by
id, leaving the others — and their sequence values — untouched (§4.1). -/
def Store.remove (st : Store) (id : Nat) : Except StoreErr Store :=
  if st.messages.any (fun m => m.id = id) then
    .ok ⟨st.messages.filter (fun m => m.id ≠ id), st.nextSeq⟩
  else .error .notFound

/-- Modelled from the spec: the legal status transitions (§4.1). -/
def legalTransition : Status → Status → Bool
  | .pending, .streaming => true
  | .streaming, .complete => true
  | .streaming, .error => true
  | .pending, .error => true
  | _, _ => false

/-- Modelled from the spec: `setStatus(id, status)` (§4.1). -/
def Store.setStatus (st : Store) (id : Nat) (s : Status) : Except StoreErr Store :=
  match st.get? id with
  | none => .error .notFound
  | some m =>
    if legalTransition m.status s then
      .ok (st.modifyMsg id (fun x => { x with status := s }))
    else .error .invalidState

/-- Modelled from the spec: `updateText(id, displayText)` replaces the
display text and recomputes `processedText` through the Context
Resolver (passed as `resolve`); it fails when the message is pending or
streaming (§4.1). -/
def Store.updateText (resolve : String → MessageContext → String) (st : Store)
    (id : Nat) (t : String) : Except StoreErr Store :=
  match st.get? id with
  | none => .error .notFound
  | some m =>
    if m.status = .pending ∨ m.status = .streaming then .error .invalidState
    else
      .ok (st.modifyMsg id (fun x =>
        { x with displayText := t, processedText := resolve t x.context }))

/-- Modelled from the spec: `updateContext(id, context)` replaces the
attached context and recomputes `processedText`; same status restriction
as `updateText` (§4.1). -/
def Store.updateContext (resolve : String → MessageContext → String) (st : Store)
    (id : Nat) (c : MessageContext) : Except StoreErr Store :=
  match st.get? id with
  | none => .error .notFound
  | some m =>
    if m.status = .pending ∨ m.status = .streaming then .error .invalidState
    else
      .ok (st.modifyMsg id (fun x =>
        { x with context := c, processedText := resolve x.displayText c }))

/-- Modelled from the spec: `appendStreamDelta(id, textFragment)`
appends a fragment to the display text (and, for assistant messages,
the processed text) of a streaming message (§4.1). -/
def Store.appendStreamDelta (st : Store) (id : Nat) (frag : String) :
    Except StoreErr Store :=
  match st.get? id with
  | none => .error .notFound
  | some m =>
    if m.status = .streaming then
      .ok (st.modifyMsg id (fun x =>
        { x with displayText := x.displayText ++ frag
                 processedText :=
                   if x.role = .assistant then x.processedText ++ frag
                   else x.processedText }))
    else .error .invalidState

/-- Message predicate used by `getLLMMessages`: status is not error. -/
def nonError (m : Message) : Bool :=
  match m.status with
  | .error => false
  | _ => true

/-- Modelled from the spec: `getLLMMessages()` projects the non-error
messages, in store order, to role and processed text (§4.1). -/
def Store.getLLMMessages (st : Store) : List (Role × String) :=
  (st.messages.filter nonError).map (fun m => (m.role, m.processedText))

/-- Modelled from the spec: `getDisplayMessages()` projects every
message, in store order, without model-facing content (§4.1). -/
def Store.getDisplayMessages (st : Store) :
    List (Nat × Role × String × Status × MessageContext) :=
  st.messages.map (fun m => (m.id, m.role, m.displayText, m.status, m.context))

/-- The Store's mutating operations, for quantifying over call
sequences. -/
inductive StoreOp where
  | append (m : Message)
  | updateText (id : Nat) (t : String)
  | updateContext (id : Nat) (c : MessageContext)
  | appendDelta (id : Nat) (t : String)
  | setStatus (id : Nat) (s : Status)
  | truncateFrom (s : Nat)
  | remove (id : Nat)
deriving Repr

/-- Apply one Store operation; a failing operation leaves the state
unchanged (failures are surfaced synchronously, §7). -/
def Store.applyOp (resolve : String → MessageContext → String) (st : Store) :
    StoreOp → Store
  | .append m => (st.append m).toOption.getD st
  | .updateText id t => (Store.updateText resolve st id t).toOption.getD st
  | .updateContext id c => (Store.updateContext resolve st id c).toOption.getD st
  | .appendDelta id t => (st.appendStreamDelta id t).toOption.getD st
  | .setStatus id s => (st.setStatus id s).toOption.getD st
  | .truncateFrom s => st.truncateFrom s
  | .remove id => (st.remove id).toOption.getD st

/-- Store invariant: sequence values strictly increase in iteration
order, stay below `nextSeq`, and ids are pairwise distinct. -/
def Store.Inv (st : Store) : Prop :=
  st.messages.Pairwise (fun a b => a.sequence < b.sequence)
  ∧ (∀ m ∈ st.messages, m.sequence < st.nextSeq)
  ∧ st.messages.Pairwise (fun a b => a.id ≠ b.id)

instance (st : Store) : Decidable st.Inv := by
  unfold Store.Inv
  infer_instance

/-- Empty context record, used in concrete test states. -/
def ctxEmpty : MessageContext := ⟨[], [], [], [], []⟩

/-- Concrete message for witness states. -/
def msgW1 : Message := ⟨0, .user, "hi", "hi", ctxEmpty, .complete, 0⟩

/-- Concrete message for witness states. -/
def msgW2 : Message := ⟨1, .assistant, "yo", "yo", ctxEmpty, .complete, 1⟩

/-- Concrete error-status message for witness states. -/
def msgW3 : Message := ⟨2, .assistant, "failed", "failed", ctxEmpty, .error, 2⟩

/-- Concrete two-message store satisfying the invariant. -/
def stW : Store := ⟨[msgW1, msgW2], 2⟩

/-- Concrete three-message store whose last message has error status. -/
def stW2 : Store := ⟨[msgW1, msgW2, msgW3], 3⟩

/-- Identity resolver used in concrete test states. -/
def resolveW : String → MessageContext → String := fun t _ => t

/-! ## Conversation Orchestrator (modelled from the spec) -/

/-- Modelled from the spec: bookkeeping for the at-most-one in-flight
generation of a Conversation — the target assistant message id and the
number of token fragments received so far (§5). -/
structure GenInfo where
  msgId : Nat
  tokens : Nat
deriving DecidableEq, Repr

/-- Modelled from the spec: typed orchestrator failures (§7). -/
inductive OrchErr where
  | concurrentOperation
  | store (e : StoreErr)
deriving DecidableEq, Repr

/-- Modelled from the spec: the orchestrator state — the Conversation
Registry, the active identity, the per-conversation in-flight
generations, and a source of fresh message ids (§3, §4.2); the
orchestrator implementation file is not among the provided sources. -/
structure OrchState where
  registry : List (String × Store)
  active : String
  inFlight : List (String × GenInfo)
  nextId : Nat
deriving DecidableEq, Repr

/-- Lookup in an association list keyed by conversation identity. -/
def assocGet {α : Type} (r : List (String × α)) (k : String) : Option α :=
  (r.find? (fun e => e.1 = k)).map (·.2)

/-- Update an association list keyed by conversation identity, appending
when the key is absent. -/
def assocSet {α : Type} (r : List (String × α)) (k : String) (v : α) :
    List (String × α) :=
  match r with
  | [] => [(k, v)]
  | e :: rest => if e.1 = k then (k, v) :: rest else e :: assocSet rest k v

/-- Remove a key from an association list. -/
def assocRemove {α : Type} (r : List (String × α)) (k : String) :
    List (String × α) :=
  r.filter (fun e => e.1 ≠ k)

/-- Registry lookup by conversation identity. -/
def regGet (r : List (String × Store)) (k : String) : Option Store :=
  assocGet r k

/-- Registry update by conversation identity. -/
def regSet (r : List (String × Store)) (k : String) (v : Store) :
    List (String × Store) :=
  assocSet r k v

/-- In-flight lookup by conversation identity. -/
def genGet (g : List (String × GenInfo)) (k : String) : Option GenInfo :=
  assocGet g k

/-- In-flight update by conversation identity. -/
def genSet (g : List (String × GenInfo)) (k : String) (v : GenInfo) :
    List (String × GenInfo) :=
  assocSet g k v

/-- Remove a conversation's in-flight entry. -/
def genRemove (g : List (String × GenInfo)) (k : String) :
    List (String × GenInfo) :=
  assocRemove g k

/-- Modelled from the spec: the active Conversation's Store, lazily
materialized as empty when the identity has never been seen (§3). -/
def OrchState.getActiveStore (st : OrchState) : Store :=
  (regGet st.registry st.active).getD Store.empty

/-- Modelled from the spec: `send(text, context)` — fails synchronously
with `ConcurrentOperationError` while a generation is in flight on the
active Conversation; otherwise appends a complete user message, appends
a pending assistant message, transitions it to streaming and records the
in-flight generation (§4.2). -/
def OrchState.send (resolve : String → MessageContext → String) (st : OrchState)
    (text : String) (ctx : MessageContext) : Except OrchErr OrchState :=
  if (genGet st.inFlight st.active).isSome then .error .concurrentOperation
  else
    let store := st.getActiveStore
    let userMsg : Message := ⟨st.nextId, .user, text, resolve text ctx, ctx, .complete, 0⟩
    match store.append userMsg with
    | .error e => .error (.store e)
    | .ok store1 =>
      let asstMsg : Message := ⟨st.nextId + 1, .assistant, "", "", ctxEmpty, .pending, 0⟩
      match store1.append asstMsg with
      | .error e => .error (.store e)
      | .ok store2 =>
        match store2.setStatus (st.nextId + 1) .streaming with
        | .error e => .error (.store e)
        | .ok store3 =>
          .ok { registry := regSet st.registry st.active store3
                active := st.active
                inFlight := (st.active, ⟨st.nextId + 1, 0⟩) :: st.inFlight
                nextId := st.nextId + 2 }

/-- Modelled from the spec: one streamed token fragment is fed through
`appendStreamDelta` into the in-flight assistant message (§4.2). -/
def OrchState.streamDelta (st : OrchState) (frag : String) : OrchState :=
  match genGet st.inFlight st.active with
  | none => st
  | some g =>
    let store := st.getActiveStore
    let store1 := (store.appendStreamDelta g.msgId frag).toOption.getD store
    { st with registry := regSet st.registry st.active store1
              inFlight := genSet st.inFlight st.active ⟨g.msgId, g.tokens + 1⟩ }

/-- Modelled from the spec: cancellation of the in-flight generation
transitions the affected message to complete when at least one token
fragment was received and to error when none was, keeping the
accumulated partial display text (§5). -/
def OrchState.cancel (st : OrchState) : OrchState :=
  match genGet st.inFlight st.active with
  | none => st
  | some g =>
    let store := st.getActiveStore
    let newStatus := if g.tokens = 0 then Status.error else Status.complete
    let store1 := (store.setStatus g.msgId newStatus).toOption.getD store
    { st with registry := regSet st.registry st.active store1
              inFlight := genRemove st.inFlight st.active }

/-- Modelled from the spec: stream completion transitions the in-flight
assistant message to complete (§4.2). -/
def OrchState.finishStream (st : OrchState) : OrchState :=
  match genGet st.inFlight st.active with
  | none => st
  | some g =>
    let store := st.getActiveStore
    let store1 := (store.setStatus g.msgId .complete).toOption.getD store
    { st with registry := regSet st.registry st.active store1
              inFlight := genRemove st.inFlight st.active }

/-- Modelled from the spec: a generation failure is absorbed — the
in-flight assistant message moves to error and carries the error text as
its display text (§4.2, §7). -/
def OrchState.failGen (st : OrchState) (errText : String) : OrchState :=
  match genGet st.inFlight st.active with
  | none => st
  | some g =>
    let store := st.getActiveStore
    let store1 := store.modifyMsg g.msgId (fun m => { m with displayText := errText })
    let store2 := (store1.setStatus g.msgId .error).toOption.getD store1
    { st with registry := regSet st.registry st.active store2
              inFlight := genRemove st.inFlight st.active }

/-- Modelled from the spec: `clear()` replaces the active Conversation's
Store with a fresh empty one, leaving other identities untouched
(§4.2). -/
def OrchState.clearConv (st : OrchState) : OrchState :=
  { st with registry := regSet st.registry st.active Store.empty
            inFlight := genRemove st.inFlight st.active }

/-- Modelled from the spec: `resolveActiveConversation()` switches the
active pointer, lazily materializing an empty Store for a previously
unseen identity and never touching any other identity's Store (§4.2). -/
def OrchState.switchTo (st : OrchState) (idy : String) : OrchState :=
  { st with active := idy
            registry :=
              match regGet st.registry idy with
              | some _ => st.registry
              | none => st.registry ++ [(idy, Store.empty)] }

/-- Orchestrator operations acting on the active Conversation (identity
switches are kept separate). `storeMut` covers the orchestrator
operations that reduce to Store mutations on the active Conversation
(edit, regenerate, deleteMessage, truncation). -/
inductive OrchOp where
  | send (text : String) (ctx : MessageContext)
  | delta (frag : String)
  | cancel
  | finish
  | failGen (errText : String)
  | storeMut (op : StoreOp)
  | clear
deriving Repr

/-- Apply one orchestrator operation; a synchronously failing operation
leaves the state unchanged. -/
def OrchState.step (resolve : String → MessageContext → String) (st : OrchState) :
    OrchOp → OrchState
  | .send text ctx => (st.send resolve text ctx).toOption.getD st
  | .delta frag => st.streamDelta frag
  | .cancel => st.cancel
  | .finish => st.finishStream
  | .failGen e => st.failGen e
  | .storeMut op =>
      { st with registry := regSet st.registry st.active (st.getActiveStore.applyOp resolve op) }
  | .clear => st.clearConv

/-- Run a list of orchestrator operations from a state. -/
def OrchState.run (resolve : String → MessageContext → String) (st : OrchState)
    (ops : List OrchOp) : OrchState :=
  ops.foldl (OrchState.step resolve) st

/-- Concrete orchestrator state for the C8 witness: identity A holds the
two-message store and is active. -/
def stO8 : OrchState :=
  { registry := [("A", stW)], active := "A", inFlight := [], nextId := 2 }

/-- Concrete operation list for the C8 witness. -/
def opsW : List OrchOp :=
  [.send "hey" ctxEmpty, .delta "tok", .cancel, .storeMut (.truncateFrom 0), .clear]

/-- Concrete orchestrator state for the C6 witness: identity A is active
with a generation in flight. -/
def stO6 : OrchState :=
  { registry := [("A", stW)], active := "A",
    inFlight := [("A", ⟨1, 0⟩)], nextId := 3 }

/-- Concrete streaming assistant message for the C7 witness. -/
def msgStreamW : Message := ⟨1, .assistant, "par", "par", ctxEmpty, .streaming, 1⟩

/-- Concrete orchestrator state with an in-flight generation that has
received two token fragments. -/
def stO7 : OrchState :=
  { registry := [("A", ⟨[msgW1, msgStreamW], 2⟩)], active := "A",
    inFlight := [("A", ⟨1, 2⟩)], nextId := 2 }

/-- Registration-order list of the `FileParserManager` constructor:
MarkdownParser, Docs4LLMParser, PDFParser only outside project mode,
CanvasParser. -/
def createRegs (mode : Bool) : List (ParserKind × List String) :=
  [(.markdown, MarkdownParser.supportedExtensions),
   (.docs4llm, Docs4LLMParser.supportedExtensions)]
  ++ (if mode then [] else [(.pdfParserKind, PDFParser.supportedExtensions)])
  ++ [(.canvas, CanvasParser.supportedExtensions)]

/-- The parser most recently registered for an extension: the first
registration, scanning from the latest backwards, that supports it. -/
def lastRegistered (regs : List (ParserKind × List String)) (ext : String) :
    Option ParserKind :=
  (regs.reverse.find? (fun r => ext ∈ r.2)).map (·.1)

/-! ## Active-file tracker (src state/activeFileTracker.ts) -/

/-- A vault file, identified by its path. -/
structure TFile where
  path : String
deriving DecidableEq, Repr

/-- Eligibility of an optional file. `isAllowedFileForNoteContext` is
imported from utils, which is not among the provided sources; modelled
from the spec as an arbitrary eligibility predicate on files, with a
null file never eligible. -/
def isAllowedOpt (allowed : TFile → Bool) : Option TFile → Bool
  | none => false
  | some f => allowed f

/-- Embeds `getLeafContextFile`: the file of a leaf's view when it is
context-eligible, else null. A leaf is modelled by the optional file of
its view; a null leaf yields null. -/
def getLeafContextFile (allowed : TFile → Bool) :
    Option (Option TFile) → Option TFile
  | none => none
  | some f => if isAllowedOpt allowed f then f else none

/-- Embeds `trackContextFile`: the stored file is overwritten only with
an eligible file. -/
def trackContextFile (allowed : TFile → Bool) (st : Option TFile)
    (file : Option TFile) : Option TFile :=
  if isAllowedOpt allowed file then file else st

/-- Embeds `trackLeafContextFile`. -/
def trackLeafContextFile (allowed : TFile → Bool) (st : Option TFile)
    (leaf : Option (Option TFile)) : Option TFile :=
  trackContextFile allowed st (getLeafContextFile allowed leaf)

/-- Embeds `getLastActiveContextFile`: returns the stored file. -/
def getLastActiveContextFile (st : Option TFile) : Option TFile := st

/-- Embeds `getActiveContextFile`: returns the current active file when
it is eligible (tracking it as a side effect) and otherwise the stored
file, with the state unchanged. Result: returned file, new state. -/
def getActiveContextFile (allowed : TFile → Bool) (st : Option TFile)
    (activeFile : Option TFile) : Option TFile × Option TFile :=
  if isAllowedOpt allowed activeFile then
    (activeFile, trackContextFile allowed st activeFile)
  else
    (st, st)

/-- The tracker's mutating calls, with their input files. -/
inductive TrackerOp where
  | track (file : Option TFile)
  | trackLeaf (leaf : Option (Option TFile))
  | getActive (activeFile : Option TFile)
deriving Repr

/-- State transition of one tracker call. -/
def trackerStep (allowed : TFile → Bool) (st : Option TFile) :
    TrackerOp → Option TFile
  | .track file => trackContextFile allowed st file
  | .trackLeaf leaf => trackLeafContextFile allowed st leaf
  | .getActive a => (getActiveContextFile allowed st a).2

/-- Run a sequence of tracker calls. -/
def trackerRun (allowed : TFile → Bool) (st : Option TFile)
    (ops : List TrackerOp) : Option TFile :=
  ops.foldl (trackerStep allowed) st

/-- The eligible file one call contributes, if any. -/
def eligOf (allowed : TFile → Bool) : TrackerOp → Option TFile
  | .track file => if isAllowedOpt allowed file then file else none
  | .trackLeaf leaf =>
      if isAllowedOpt allowed (getLeafContextFile allowed leaf) then
        getLeafContextFile allowed leaf
      else none
  | .getActive a => if isAllowedOpt allowed a then a else none

/-- The most recently contributed eligible file of a call sequence. -/
def lastEligible (allowed : TFile → Bool) : List TrackerOp → Option TFile
  | [] => none
  | op :: rest =>
    match lastEligible allowed rest with
    | some f => some f
    | none => eligOf allowed op

/-- Concrete conversion for parse examples: tags the binary content. -/
def pdfConvW : String → Option String := fun b => some ("parsed:" ++ b)

/-- Concrete always-failing conversion. -/
def pdfFailW : String → Option String := fun _ => none

/-- Concrete failing document conversion: the client returns an empty
response on an extraction failure. -/
def docsFailW : String → String := fun _ => ""

/-- Concrete vault before the PDF content changed. -/
def vaultBefore : String → String := fun _ => "v1"

/-- Concrete vault after the PDF content changed. -/
def vaultAfter : String → String := fun _ => "v2"

/-- First resolution of the PDF, on an empty cache. -/
def firstParse : ParseOutcome :=
  PDFParser.parseFile pdfConvW vaultBefore [] "a.pdf" "a"

/-- Second resolution of the same PDF after its content changed. -/
def secondParse : ParseOutcome :=
  PDFParser.parseFile pdfConvW vaultAfter firstParse.cache "a.pdf" "a"

/-- Pre-edit context carrying a tag and a selected-text snippet. -/
def ctxTagged : MessageContext := ⟨[], [], ["projectX"], [], ["snippet"]⟩

/-- Context supplied by the edit UI: notes, urls, folders only. -/
def editW : EditedContext := ⟨["n.md"], ["https://e.x"], ["dir"]⟩


/-- The empty Store satisfies the invariant. -/
theorem store_empty_inv : Store.empty.Inv := by
  refine ⟨?_, ?_, ?_⟩ <;> simp [Store.empty]

/-- In-place mutation that changes neither ids nor sequence values
preserves the Store invariant. -/
lemma inv_modifyMsg {st : Store} (h : st.Inv) (id : Nat) (f : Message → Message)
    (hseq : ∀ m, (f m).sequence = m.sequence) (hid : ∀ m, (f m).id = m.id) :
    (st.modifyMsg id f).Inv := by
  obtain ⟨h1, h2, h3⟩ := h
  have gseq : ∀ m : Message,
      ((fun m => if m.id = id then f m else m) m).sequence = m.sequence := by
    intro m; by_cases hc : m.id = id <;> simp [hc, hseq]
  have gid : ∀ m : Message,
      ((fun m => if m.id = id then f m else m) m).id = m.id := by
    intro m; by_cases hc : m.id = id <;> simp [hc, hid]
  refine ⟨?_, ?_, ?_⟩
  · exact h1.map _ (fun a b hab => by rw [gseq, gseq]; exact hab)
  · intro m hm
    rcases List.mem_map.mp hm with ⟨x, hx, rfl⟩
    rw [gseq]
    exact h2 x hx
  · exact h3.map _ (fun a b hab => by rw [gid, gid]; exact hab)

/-- A successful `append` preserves the Store invariant. -/
lemma inv_append {st : Store} (h : st.Inv) {m : Message} {st' : Store}
    (hok : st.append m = .ok st') : st'.Inv := by
  obtain ⟨h1, h2, h3⟩ := h
  unfold Store.append at hok
  by_cases hc : st.messages.any (fun x => x.id = m.id)
  · simp [hc] at hok
  · simp only [hc, Bool.false_eq_true, if_false, Except.ok.injEq] at hok
    subst hok
    refine ⟨?_, ?_, ?_⟩
    · rw [List.pairwise_append]
      refine ⟨h1, by simp, ?_⟩
      intro a ha b hb
      simp at hb
      subst hb
      exact h2 a ha
    · intro x hx
      rcases List.mem_append.mp hx with hx | hx
      · exact Nat.lt_succ_of_lt (h2 x hx)
      · simp at hx
        subst hx
        exact Nat.lt_succ_self _
    · rw [List.pairwise_append]
      refine ⟨h3, by simp, ?_⟩
      intro a ha b hb
      simp at hb
      subst hb
      simp only [List.any_eq_true, decide_eq_true_eq, not_exists, not_and] at hc
      push_neg at hc
      exact hc a ha

/-- `truncateFrom` preserves the Store invariant. -/
lemma inv_truncateFrom {st : Store} (h : st.Inv) (s : Nat) : (st.truncateFrom s).Inv := by
  obtain ⟨h1, h2, h3⟩ := h
  refine ⟨h1.sublist (List.filter_sublist _), ?_, h3.sublist (List.filter_sublist _)⟩
  intro m hm
  rcases List.mem_filter.mp hm with ⟨hmem, hlt⟩
  simp only [decide_eq_true_eq] at hlt
  exact lt_min (h2 m hmem) hlt

/-- A successful `remove` preserves the Store invariant. -/
lemma inv_remove {st : Store} (h : st.Inv) {id : Nat} {st' : Store}
    (hok : st.remove id = .ok st') : st'.Inv := by
  obtain ⟨h1, h2, h3⟩ := h
  unfold Store.remove at hok
  by_cases hc : st.messages.any (fun m => m.id = id)
  · simp only [hc, if_true, Except.ok.injEq] at hok
    subst hok
    refine ⟨h1.sublist (List.filter_sublist _), ?_, h3.sublist (List.filter_sublist _)⟩
    intro m hm
    exact h2 m (List.mem_filter.mp hm).1
  · simp [hc] at hok

/-- A successful `setStatus` preserves the Store invariant. -/
lemma inv_setStatus {st : Store} (h : st.Inv) {id : Nat} {s : Status} {st' : Store}
    (hok : st.setStatus id s = .ok st') : st'.Inv := by
  unfold Store.setStatus at hok
  split at hok
  · exact absurd hok (by simp)
  · split at hok
    · simp only [Except.ok.injEq] at hok
      subst hok
      exact inv_modifyMsg h id _ (fun m => rfl) (fun m => rfl)
    · exact absurd hok (by simp)

/-- A successful `updateText` preserves the Store invariant. -/
lemma inv_updateText {resolve : String → MessageContext → String} {st : Store}
    (h : st.Inv) {id : Nat} {t : String} {st' : Store}
    (hok : Store.updateText resolve st id t = .ok st') : st'.Inv := by
  unfold Store.updateText at hok
  split at hok
  · exact absurd hok (by simp)
  · split at hok
    · exact absurd hok (by simp)
    · simp only [Except.ok.injEq] at hok
      subst hok
      exact inv_modifyMsg h id _ (fun m => rfl) (fun m => rfl)

/-- A successful `updateContext` preserves the Store invariant. -/
lemma inv_updateContext {resolve : String → MessageContext → String} {st : Store}
    (h : st.Inv) {id : Nat} {c : MessageContext} {st' : Store}
    (hok : Store.updateContext resolve st id c = .ok st') : st'.Inv := by
  unfold Store.updateContext at hok
  split at hok
  · exact absurd hok (by simp)
  · split at hok
    · exact absurd hok (by simp)
    · simp only [Except.ok.injEq] at hok
      subst hok
      exact inv_modifyMsg h id _ (fun m => rfl) (fun m => rfl)

/-- A successful `appendStreamDelta` preserves the Store invariant. -/
lemma inv_appendStreamDelta {st : Store} (h : st.Inv) {id : Nat} {t : String}
    {st' : Store} (hok : st.appendStreamDelta id t = .ok st') : st'.Inv := by
  unfold Store.appendStreamDelta at hok
  split at hok
  · exact absurd hok (by simp)
  · split at hok
    · simp only [Except.ok.injEq] at hok
      subst hok
      exact inv_modifyMsg h id _ (fun m => rfl) (fun m => rfl)
    · exact absurd hok (by simp)

/-- Every Store operation preserves the invariant (a failing operation
leaves the state unchanged). -/
lemma inv_applyOp (resolve : String → MessageContext → String) {st : Store}
    (h : st.Inv) (op : StoreOp) : (st.applyOp resolve op).Inv := by
  cases op with
  | append m =>
    simp only [Store.applyOp]
    cases hres : st.append m with
    | error e => simpa [hres] using h
    | ok st' =>
      simpa [hres] using inv_append h hres
  | updateText id t =>
    simp only [Store.applyOp]
    cases hres : Store.updateText resolve st id t with
    | error e => simpa [hres] using h
    | ok st' => simpa [hres] using inv_updateText h hres
  | updateContext id c =>
    simp only [Store.applyOp]
    cases hres : Store.updateContext resolve st id c with
    | error e => simpa [hres] using h
    | ok st' => simpa [hres] using inv_updateContext h hres
  | appendDelta id t =>
    simp only [Store.applyOp]
    cases hres : st.appendStreamDelta id t with
    | error e => simpa [hres] using h
    | ok st' => simpa [hres] using inv_appendStreamDelta h hres
  | setStatus id s =>
    simp only [Store.applyOp]
    cases hres : st.setStatus id s with
    | error e => simpa [hres] using h
    | ok st' => simpa [hres] using inv_setStatus h hres
  | truncateFrom s =>
    exact inv_truncateFrom h s
  | remove id =>
    simp only [Store.applyOp]
    cases hres : st.remove id with
    | error e => simpa [hres] using h
    | ok st' => simpa [hres] using inv_remove h hres

/-- Removing by id from a duplicate-free list drops exactly one element
when the id is present. -/
lemma filter_ne_length {l : List Message}
    (hnd : l.Pairwise (fun a b => a.id ≠ b.id)) (id : Nat)
    (hmem : l.any (fun m => m.id = id) = true) :
    (l.filter (fun m => m.id ≠ id)).length + 1 = l.length := by
  induction l with
  | nil => simp at hmem
  | cons a t ih =>
    rw [List.pairwise_cons] at hnd
    by_cases ha : a.id = id
    · have hfilter : t.filter (fun m => m.id ≠ id) = t := by
        apply List.filter_eq_self.mpr
        intro m hm
        have hne : ¬ m.id = id := fun hmi => hnd.1 m hm (by rw [ha, hmi])
        simpa using hne
      rw [show (a :: t).filter (fun m => m.id ≠ id) = t.filter (fun m => m.id ≠ id) from by
            simp [List.filter_cons, ha],
          hfilter]
      simp
    · have hmem2 : t.any (fun m => m.id = id) = true := by
        simp only [List.any_cons, Bool.or_eq_true, decide_eq_true_eq] at hmem
        exact hmem.resolve_left ha
      have hlen := ih hnd.2 hmem2
      rw [show (a :: t).filter (fun m => m.id ≠ id) = a :: t.filter (fun m => m.id ≠ id) from by
            simp [List.filter_cons, ha]]
      simp only [List.length_cons]
      omega

/-- C4: at every snapshot satisfying the Store invariant, the sequence
values of the stored messages strictly increase in iteration order and
every Store operation preserves the invariant; `truncateFrom s` keeps
exactly the messages with sequence below `s`, each one untouched (so no
surviving sequence value is reassigned); `remove id` deletes exactly one
message — the one carrying that id — while every other message, with its
original sequence value, is kept. -/
theorem C4_store_sequence_invariants (resolve : String → MessageContext → String)
    (st : Store) (h : st.Inv) :
    st.messages.Pairwise (fun a b => a.sequence < b.sequence)
    ∧ (∀ op : StoreOp, (st.applyOp resolve op).Inv)
    ∧ (∀ s : Nat, ∀ m : Message,
        m ∈ (st.truncateFrom s).messages ↔ m ∈ st.messages ∧ m.sequence < s)
    ∧ (∀ id : Nat, ∀ st' : Store, st.remove id = .ok st' →
        st'.messages.length + 1 = st.messages.length
        ∧ (∀ m : Message, m ∈ st'.messages ↔ m ∈ st.messages ∧ m.id ≠ id)) := by
  obtain ⟨h1, h2, h3⟩ := h
  refine ⟨h1, inv_applyOp resolve ⟨h1, h2, h3⟩, ?_, ?_⟩
  · intro s m
    simp [Store.truncateFrom, List.mem_filter]
  · intro id st' hok
    unfold Store.remove at hok
    by_cases hc : st.messages.any (fun m => m.id = id)
    · simp only [hc, if_true, Except.ok.injEq] at hok
      subst hok
      refine ⟨filter_ne_length h3 id hc, ?_⟩
      intro m
      simp [List.mem_filter]
    · simp [hc] at hok

/-- Witness for C4 at a concrete two-message store. -/
theorem C4_store_sequence_invariants_witness :
    stW.Inv ∧ stW.messages.Pairwise (fun a b => a.sequence < b.sequence) :=
  ⟨by decide, (C4_store_sequence_invariants resolveW stW (by decide)).1⟩

/-- C5: `getLLMMessages` is exactly the non-error messages of the store,
projected to (role, processedText), in store order; under the invariant
that order is strictly increasing in sequence, and its length equals the
count of non-error messages. -/
theorem C5_getLLMMessages_exact (st : Store) (h : st.Inv) :
    st.getLLMMessages
      = (st.messages.filter nonError).map (fun m => (m.role, m.processedText))
    ∧ st.getLLMMessages.length = st.messages.countP nonError
    ∧ (st.messages.filter nonError).Pairwise (fun a b => a.sequence < b.sequence) := by
  refine ⟨rfl, ?_, h.1.sublist (List.filter_sublist _)⟩
  simp [Store.getLLMMessages, List.countP_eq_length_filter]

/-- Witness for C5 at a concrete store containing an error message. -/
theorem C5_getLLMMessages_exact_witness :
    stW2.Inv ∧ stW2.getLLMMessages.length = stW2.messages.countP nonError :=
  ⟨by decide, (C5_getLLMMessages_exact stW2 (by decide)).2.1⟩

/-- Looking up a just-set key returns the new value. -/
lemma assocGet_set_self {α : Type} (r : List (String × α)) (k : String) (v : α) :
    assocGet (assocSet r k v) k = some v := by
  induction r with
  | nil => simp [assocSet, assocGet, List.find?]
  | cons e rest ih =>
    by_cases he : e.1 = k
    · simp [assocSet, he, assocGet, List.find?]
    · simp only [assocSet, he, if_false]
      simp only [assocGet, List.find?, he, decide_False] at ih ⊢
      simpa [he] using ih

/-- Setting one key leaves every other key's binding unchanged. -/
lemma assocGet_set_other {α : Type} (r : List (String × α)) (k k' : String)
    (hne : k' ≠ k) (v : α) : assocGet (assocSet r k v) k' = assocGet r k' := by
  have hkk : (k = k') = False := by
    simp only [eq_iff_iff, iff_false]
    exact fun h => hne h.symm
  induction r with
  | nil => simp [assocSet, assocGet, List.find?, hkk]
  | cons e rest ih =>
    by_cases he : e.1 = k
    · have hek : (e.1 = k') = False := by rw [he]; exact hkk
      simp [assocSet, he, assocGet, List.find?, hkk, hek]
    · by_cases he' : e.1 = k'
      · simp only [assocSet, he, if_false]
        simp [assocGet, List.find?, he']
      · simp only [assocSet, he, if_false]
        simp only [assocGet, List.find?, he', decide_False] at ih ⊢
        simpa [he'] using ih

/-- A find? that fails on a prefix continues in the suffix. -/
lemma find?_append_of_none {α : Type} {p : α → Bool} {l1 : List α} (l2 : List α)
    (h : l1.find? p = none) : (l1 ++ l2).find? p = l2.find? p := by
  induction l1 with
  | nil => simp
  | cons a t ih =>
    by_cases hp : p a
    · rw [List.find?_cons_of_pos _ hp] at h
      exact absurd h (by simp)
    · rw [List.cons_append, List.find?_cons_of_neg _ (by simpa using hp)]
      rw [List.find?_cons_of_neg _ (by simpa using hp)] at h
      exact ih h

/-- A binding present in a list survives appending an entry. -/
lemma assocGet_append_of_some {α : Type} {r : List (String × α)} {k : String} {v : α}
    (h : assocGet r k = some v) (e : String × α) : assocGet (r ++ [e]) k = some v := by
  induction r with
  | nil => simp [assocGet, List.find?] at h
  | cons a rest ih =>
    by_cases ha : a.1 = k
    · simp only [assocGet, List.cons_append, List.find?, ha, decide_True] at h ⊢
      exact h
    · simp only [assocGet, List.cons_append, List.find?, ha, decide_False] at h ⊢
      exact ih h

/-- Appending a binding for an absent key makes it findable. -/
lemma assocGet_append_self_of_none {α : Type} {r : List (String × α)} {k : String}
    (h : assocGet r k = none) (v : α) : assocGet (r ++ [(k, v)]) k = some v := by
  have hfind : r.find? (fun e => e.1 = k) = none := by
    unfold assocGet at h
    exact Option.map_eq_none'.mp h
  unfold assocGet
  rw [find?_append_of_none _ hfind]
  simp [List.find?]

/-- Removing a key makes it unfindable. -/
lemma assocGet_remove_self {α : Type} (g : List (String × α)) (k : String) :
    assocGet (assocRemove g k) k = none := by
  unfold assocGet assocRemove
  rw [Option.map_eq_none', List.find?_eq_none]
  intro x hx
  have := (List.mem_filter.mp hx).2
  simpa using this

/-- A successful `send` keeps the active identity and only rewrites the
active Conversation's registry entry. -/
lemma send_ok_shape {resolve : String → MessageContext → String} {st : OrchState}
    {text : String} {ctx : MessageContext} {st' : OrchState}
    (h : st.send resolve text ctx = .ok st') :
    st'.active = st.active
    ∧ ∀ k : String, k ≠ st.active → regGet st'.registry k = regGet st.registry k := by
  unfold OrchState.send at h
  split at h
  · exact absurd h (by simp)
  · dsimp only at h
    split at h
    · exact absurd h (by simp)
    · split at h
      · exact absurd h (by simp)
      · split at h
        · exact absurd h (by simp)
        · simp only [Except.ok.injEq] at h
          subst h
          refine ⟨rfl, ?_⟩
          intro k hk
          exact assocGet_set_other _ _ _ hk _

/-- One orchestrator step keeps the active identity and never touches
another Conversation's registry entry. -/
lemma step_preserves_other (resolve : String → MessageContext → String)
    (st : OrchState) (op : OrchOp) (k : String) (hk : k ≠ st.active) :
    regGet (st.step resolve op).registry k = regGet st.registry k
    ∧ (st.step resolve op).active = st.active := by
  cases op with
  | send text ctx =>
    have hstep : st.step resolve (.send text ctx)
        = (st.send resolve text ctx).toOption.getD st := rfl
    rw [hstep]
    cases h : st.send resolve text ctx with
    | error e => exact ⟨rfl, rfl⟩
    | ok st2 =>
      have hs := send_ok_shape h
      simp only [Except.toOption, Option.getD_some]
      exact ⟨hs.2 k hk, hs.1⟩
  | delta frag =>
    have hstep : st.step resolve (.delta frag) = st.streamDelta frag := rfl
    rw [hstep]
    unfold OrchState.streamDelta
    cases h : genGet st.inFlight st.active with
    | none => exact ⟨rfl, rfl⟩
    | some g => exact ⟨assocGet_set_other _ _ _ hk _, rfl⟩
  | cancel =>
    have hstep : st.step resolve .cancel = st.cancel := rfl
    rw [hstep]
    unfold OrchState.cancel
    cases h : genGet st.inFlight st.active with
    | none => exact ⟨rfl, rfl⟩
    | some g => exact ⟨assocGet_set_other _ _ _ hk _, rfl⟩
  | finish =>
    have hstep : st.step resolve .finish = st.finishStream := rfl
    rw [hstep]
    unfold OrchState.finishStream
    cases h : genGet st.inFlight st.active with
    | none => exact ⟨rfl, rfl⟩
    | some g => exact ⟨assocGet_set_other _ _ _ hk _, rfl⟩
  | failGen e =>
    have hstep : st.step resolve (.failGen e) = st.failGen e := rfl
    rw [hstep]
    unfold OrchState.failGen
    cases h : genGet st.inFlight st.active with
    | none => exact ⟨rfl, rfl⟩
    | some g => exact ⟨assocGet_set_other _ _ _ hk _, rfl⟩
  | storeMut op =>
    exact ⟨assocGet_set_other _ _ _ hk _, rfl⟩
  | clear =>
    exact ⟨assocGet_set_other _ _ _ hk _, rfl⟩

/-- Running any operation sequence keeps the active identity and never
touches another Conversation's registry entry. -/
lemma run_preserves_other (resolve : String → MessageContext → String)
    (ops : List OrchOp) :
    ∀ (st : OrchState) (k : String), k ≠ st.active →
      regGet (st.run resolve ops).registry k = regGet st.registry k
      ∧ (st.run resolve ops).active = st.active := by
  induction ops with
  | nil =>
    intro st k hk
    exact ⟨rfl, rfl⟩
  | cons op rest ih =>
    intro st k hk
    have h1 := step_preserves_other resolve st op k hk
    have h2 := ih (st.step resolve op) k (by rw [h1.2]; exact hk)
    simp only [OrchState.run, List.foldl_cons] at h2 ⊢
    exact ⟨h2.1.trans h1.1, h2.2.trans h1.2⟩

/-- An identity switch preserves every existing registry binding. -/
lemma switchTo_preserves_some {st : OrchState} {k : String} {S : Store}
    (h : regGet st.registry k = some S) (idy : String) :
    regGet (st.switchTo idy).registry k = some S := by
  unfold OrchState.switchTo
  cases hidy : regGet st.registry idy with
  | some s => simpa using h
  | none =>
    simp only
    exact assocGet_append_of_some h _

/-- C8: switching the active identity A to B, running arbitrary
operations on B, and switching back to A leaves A's Store exactly as it
was — the registry still binds A to the very same Store value, so A
holds the same messages in the same sequence order, with no loss and no
duplication — and the active pointer is back on A. -/
theorem C8_switch_roundtrip_preserves (resolve : String → MessageContext → String)
    (st : OrchState) (B : String) (ops : List OrchOp) (S : Store)
    (hAB : st.active ≠ B) (hS : regGet st.registry st.active = some S) :
    regGet (((st.switchTo B).run resolve ops).switchTo st.active).registry st.active
      = some S
    ∧ (((st.switchTo B).run resolve ops).switchTo st.active).active = st.active := by
  have h1 : regGet (st.switchTo B).registry st.active = some S :=
    switchTo_preserves_some hS B
  have hact1 : (st.switchTo B).active = B := rfl
  have h2 := run_preserves_other resolve ops (st.switchTo B) st.active
    (by rw [hact1]; exact hAB)
  have h3 : regGet ((st.switchTo B).run resolve ops).registry st.active = some S := by
    rw [h2.1]
    exact h1
  exact ⟨switchTo_preserves_some h3 st.active, rfl⟩

/-- Witness for C8: a concrete A → B → A round trip with operations on B
in between leaves A's store untouched. -/
theorem C8_switch_roundtrip_preserves_witness :
    stO8.active ≠ "B"
    ∧ regGet stO8.registry stO8.active = some stW
    ∧ regGet (((stO8.switchTo "B").run resolveW opsW).switchTo stO8.active).registry
        stO8.active = some stW :=
  ⟨by decide, by decide,
    (C8_switch_roundtrip_preserves resolveW stO8 "B" opsW stW (by decide) (by decide)).1⟩

/-- Appending a message whose id is fresh succeeds and places it at the
next sequence. -/
lemma append_ok_of_fresh {st : Store} {m : Message}
    (h : ∀ x ∈ st.messages, x.id ≠ m.id) :
    st.append m
      = .ok ⟨st.messages ++ [{ m with sequence := st.nextSeq }], st.nextSeq + 1⟩ := by
  unfold Store.append
  have hany : st.messages.any (fun x => x.id = m.id) = false := by
    rw [List.any_eq_false]
    intro x hx
    simp only [decide_eq_true_eq]
    exact h x hx
  rw [hany]
  simp

/-- `setStatus` succeeds on a found message with a legal transition. -/
lemma setStatus_ok_of_found {st : Store} {id : Nat} {m : Message} {s : Status}
    (hm : st.get? id = some m) (hleg : legalTransition m.status s = true) :
    st.setStatus id s = .ok (st.modifyMsg id (fun x => { x with status := s })) := by
  unfold Store.setStatus
  rw [hm]
  simp [hleg]

/-- With no generation in flight on the active Conversation and fresh
message ids, `send` succeeds. -/
lemma send_ok_of_free_and_fresh (resolve : String → MessageContext → String)
    (st : OrchState) (text : String) (ctx : MessageContext)
    (hfree : genGet st.inFlight st.active = none)
    (hfresh : ∀ m ∈ st.getActiveStore.messages, m.id < st.nextId) :
    ∃ st', st.send resolve text ctx = .ok st' := by
  unfold OrchState.send
  rw [hfree]
  simp only [Option.isSome_none, Bool.false_eq_true, if_false]
  have h1 := @append_ok_of_fresh st.getActiveStore
    ⟨st.nextId, .user, text, resolve text ctx, ctx, .complete, 0⟩
    (fun x hx => Nat.ne_of_lt (hfresh x hx))
  rw [h1]
  dsimp only
  have h2 := @append_ok_of_fresh
    ⟨st.getActiveStore.messages
        ++ [⟨st.nextId, .user, text, resolve text ctx, ctx, .complete,
             st.getActiveStore.nextSeq⟩],
      st.getActiveStore.nextSeq + 1⟩
    ⟨st.nextId + 1, .assistant, "", "", ctxEmpty, .pending, 0⟩
    (by
      intro x hx
      rcases List.mem_append.mp hx with hx | hx
      · have := hfresh x hx
        dsimp only
        omega
      · simp only [List.mem_singleton] at hx
        subst hx
        dsimp only
        omega)
  rw [h2]
  dsimp only
  have hfindpre : ((st.getActiveStore.messages
      ++ [(⟨st.nextId, .user, text, resolve text ctx, ctx, .complete,
           st.getActiveStore.nextSeq⟩ : Message)]).find?
        (fun m : Message => m.id = st.nextId + 1)) = none := by
    rw [List.find?_eq_none]
    intro x hx
    rcases List.mem_append.mp hx with hx | hx
    · have := hfresh x hx
      simp only [decide_eq_true_eq]
      omega
    · simp only [List.mem_singleton] at hx
      subst hx
      simp only [decide_eq_true_eq]
      omega
  have hget : Store.get?
      ⟨(st.getActiveStore.messages
          ++ [⟨st.nextId, .user, text, resolve text ctx, ctx, .complete,
               st.getActiveStore.nextSeq⟩])
        ++ [⟨st.nextId + 1, .assistant, "", "", ctxEmpty, .pending,
             st.getActiveStore.nextSeq + 1⟩],
        st.getActiveStore.nextSeq + 1 + 1⟩ (st.nextId + 1)
      = some ⟨st.nextId + 1, .assistant, "", "", ctxEmpty, .pending,
          st.getActiveStore.nextSeq + 1⟩ := by
    unfold Store.get?
    dsimp only
    rw [find?_append_of_none _ hfindpre]
    simp [List.find?]
  have h3 := setStatus_ok_of_found (s := Status.streaming) hget (by rfl)
  rw [h3]
  exact ⟨_, rfl⟩

/-- C6: a `send` issued while a generation is in flight on the active
Conversation fails synchronously with `ConcurrentOperationError` and
leaves the whole orchestrator state — in particular the store —
unchanged, while the same call issued after switching to a different,
idle Conversation identity succeeds. -/
theorem C6_concurrent_send (resolve : String → MessageContext → String)
    (st : OrchState) (text : String) (ctx : MessageContext) (B : String)
    (hbusy : (genGet st.inFlight st.active).isSome = true)
    (hfreeB : genGet st.inFlight B = none)
    (hfresh : ∀ m ∈ ((regGet st.registry B).getD Store.empty).messages,
        m.id < st.nextId) :
    st.send resolve text ctx = .error .concurrentOperation
    ∧ st.step resolve (.send text ctx) = st
    ∧ ∃ st', (st.switchTo B).send resolve text ctx = .ok st' := by
  have herr : st.send resolve text ctx = .error .concurrentOperation := by
    unfold OrchState.send
    rw [hbusy]
    simp
  refine ⟨herr, ?_, ?_⟩
  · have hstep : st.step resolve (.send text ctx)
        = (st.send resolve text ctx).toOption.getD st := rfl
    rw [hstep, herr]
    rfl
  · have hstoreB : (st.switchTo B).getActiveStore
        = (regGet st.registry B).getD Store.empty := by
      unfold OrchState.getActiveStore OrchState.switchTo
      cases h : regGet st.registry B with
      | some s => simp [h]
      | none =>
        dsimp only
        have : regGet (st.registry ++ [(B, Store.empty)]) B = some Store.empty :=
          assocGet_append_self_of_none h Store.empty
        rw [this]
        rfl
    apply send_ok_of_free_and_fresh
    · exact hfreeB
    · rw [hstoreB]
      exact hfresh

/-- Witness for C6: at a concrete busy state, a second send on A fails
with `ConcurrentOperationError` while the same send on idle identity B
succeeds. -/
theorem C6_concurrent_send_witness :
    (genGet stO6.inFlight stO6.active).isSome = true
    ∧ (stO6.send resolveW "hello" ctxEmpty = .error .concurrentOperation
      ∧ stO6.step resolveW (.send "hello" ctxEmpty) = stO6
      ∧ ∃ st', (stO6.switchTo "B").send resolveW "hello" ctxEmpty = .ok st') :=
  ⟨by decide,
    C6_concurrent_send resolveW stO6 "hello" ctxEmpty "B"
      (by decide) (by decide) (by decide)⟩

/-- Finding by id after an id-preserving in-place modification finds the
modified message. -/
lemma find?_map_modify (l : List Message) (id : Nat) (f : Message → Message)
    (hid : ∀ m, (f m).id = m.id) :
    (l.map (fun m => if m.id = id then f m else m)).find?
        (fun m : Message => m.id = id)
      = (l.find? (fun m : Message => m.id = id)).map f := by
  induction l with
  | nil => simp
  | cons a t ih =>
    by_cases ha : a.id = id
    · simp [List.find?, ha, hid]
    · simp [List.find?, ha, ih]

/-- `get?` after `modifyMsg` with an id-preserving function returns the
modified message. -/
lemma get?_modifyMsg (st : Store) (id : Nat) (f : Message → Message)
    (hid : ∀ m, (f m).id = m.id) :
    (st.modifyMsg id f).get? id = (st.get? id).map f := by
  unfold Store.get? Store.modifyMsg
  exact find?_map_modify st.messages id f hid

/-- Registry lookup of a just-set identity. -/
lemma regGet_set_self (r : List (String × Store)) (k : String) (v : Store) :
    regGet (regSet r k v) k = some v :=
  assocGet_set_self r k v

/-- In-flight lookup after removing the identity. -/
lemma genGet_remove_self (g : List (String × GenInfo)) (k : String) :
    genGet (genRemove g k) k = none :=
  assocGet_remove_self g k

/-- C7: cancelling an in-flight generation moves the affected message to
complete when at least one token fragment was received and to error when
none was, keeps the accumulated partial display text, never leaves the
message pending or streaming, and clears the in-flight entry. -/
theorem C7_cancellation (st : OrchState) (g : GenInfo) (m : Message)
    (hg : genGet st.inFlight st.active = some g)
    (hm : st.getActiveStore.get? g.msgId = some m)
    (hstreaming : m.status = .streaming) :
    ∃ m', st.cancel.getActiveStore.get? g.msgId = some m'
      ∧ m'.status = (if g.tokens = 0 then Status.error else Status.complete)
      ∧ m'.displayText = m.displayText
      ∧ m'.processedText = m.processedText
      ∧ m'.status ≠ Status.pending ∧ m'.status ≠ Status.streaming
      ∧ genGet st.cancel.inFlight st.active = none := by
  have hleg : legalTransition m.status
      (if g.tokens = 0 then Status.error else Status.complete) = true := by
    rw [hstreaming]
    by_cases h0 : g.tokens = 0 <;> simp [h0, legalTransition]
  have hset := setStatus_ok_of_found
    (s := if g.tokens = 0 then Status.error else Status.complete) hm hleg
  have hcancel : st.cancel = { st with
      registry := regSet st.registry st.active
        (st.getActiveStore.modifyMsg g.msgId
          (fun x => { x with
            status := if g.tokens = 0 then Status.error else Status.complete })),
      inFlight := genRemove st.inFlight st.active } := by
    unfold OrchState.cancel
    rw [hg]
    dsimp only
    rw [hset]
    rfl
  refine ⟨{ m with status := if g.tokens = 0 then Status.error else Status.complete },
    ?_, rfl, rfl, rfl, ?_, ?_, ?_⟩
  · rw [hcancel]
    have hstore : ({ st with
        registry := regSet st.registry st.active
          (st.getActiveStore.modifyMsg g.msgId
            (fun x => { x with
              status := if g.tokens = 0 then Status.error else Status.complete })),
        inFlight := genRemove st.inFlight st.active } : OrchState).getActiveStore
        = st.getActiveStore.modifyMsg g.msgId
            (fun x => { x with
              status := if g.tokens = 0 then Status.error else Status.complete }) := by
      unfold OrchState.getActiveStore
      dsimp only
      rw [regGet_set_self]
      rfl
    rw [hstore,
        get?_modifyMsg st.getActiveStore g.msgId
          (fun x => { x with
            status := if g.tokens = 0 then Status.error else Status.complete })
          (fun x => rfl),
        hm]
    rfl
  · by_cases h0 : g.tokens = 0 <;> simp [h0]
  · by_cases h0 : g.tokens = 0 <;> simp [h0]
  · rw [hcancel]
    exact genGet_remove_self _ _

/-- Witness for C7: cancelling at a concrete state with two received
fragments completes the message with its partial text. -/
theorem C7_cancellation_witness :
    genGet stO7.inFlight stO7.active = some ⟨1, 2⟩
    ∧ (∃ m', stO7.cancel.getActiveStore.get? (GenInfo.mk 1 2).msgId = some m'
        ∧ m'.status = (if (GenInfo.mk 1 2).tokens = 0 then Status.error
                       else Status.complete)
        ∧ m'.displayText = msgStreamW.displayText
        ∧ m'.processedText = msgStreamW.processedText
        ∧ m'.status ≠ Status.pending ∧ m'.status ≠ Status.streaming
        ∧ genGet stO7.cancel.inFlight stO7.active = none) :=
  ⟨by decide,
    C7_cancellation stO7 ⟨1, 2⟩ msgStreamW (by decide) (by decide) (by decide)⟩

/-- Lookup after registering one parser: its extensions now map to it,
all others are unchanged. -/
lemma registerParser_lookup (k : ParserKind) (exts : List String) :
    ∀ (m : ParserMap) (e : String),
      registerParser m k exts e = if e ∈ exts then some k else m e := by
  induction exts with
  | nil => intro m e; simp [registerParser]
  | cons x xs ih =>
    intro m e
    have hstep : registerParser m k (x :: xs)
        = registerParser (fun e2 => if e2 = x then some k else m e2) k xs := rfl
    rw [hstep, ih]
    by_cases hx : e = x
    · by_cases hmem : e ∈ xs <;> simp [hx, hmem]
    · by_cases hmem : e ∈ xs <;> simp [hx, hmem]

/-- A find? that succeeds on a prefix is unchanged by appending. -/
lemma find?_append_of_some {α : Type} {p : α → Bool} {l1 : List α} {x : α}
    (h : l1.find? p = some x) (l2 : List α) : (l1 ++ l2).find? p = some x := by
  induction l1 with
  | nil => simp at h
  | cons a t ih =>
    by_cases hp : p a
    · rw [List.find?_cons_of_pos _ hp] at h
      rw [List.cons_append, List.find?_cons_of_pos _ hp]
      exact h
    · rw [List.find?_cons_of_neg _ (by simpa using hp)] at h
      rw [List.cons_append, List.find?_cons_of_neg _ (by simpa using hp)]
      exact ih h

/-- Folding `registerParser` over a registration list looks up the most
recently registered parser for an extension. -/
lemma applyRegs_lookup (regs : List (ParserKind × List String)) :
    ∀ (m : ParserMap) (ext : String),
      (regs.foldl (fun acc r => registerParser acc r.1 r.2) m) ext
        = match lastRegistered regs ext with
          | some k => some k
          | none => m ext := by
  induction regs with
  | nil => intro m ext; simp [lastRegistered]
  | cons r rest ih =>
    intro m ext
    rw [List.foldl_cons, ih]
    unfold lastRegistered
    rw [List.reverse_cons]
    cases hfind : rest.reverse.find? (fun r => ext ∈ r.2) with
    | some x =>
      rw [find?_append_of_some hfind]
      simp
    | none =>
      rw [find?_append_of_none _ hfind]
      rw [registerParser_lookup]
      by_cases hmem : ext ∈ r.2
      · simp [List.find?, hmem]
      · simp [List.find?, hmem]

/-- The constructed parser map is exactly most-recently-registered
lookup over the constructor's registration order. -/
lemma create_parsers_eq (mode : Bool) (ext : String) :
    (FileParserManager.create mode).parsers ext
      = lastRegistered (createRegs mode) ext := by
  have h : (FileParserManager.create mode).parsers ext
      = match lastRegistered (createRegs mode) ext with
        | some k => some k
        | none => none := by
    cases mode
    · exact applyRegs_lookup (createRegs false) (fun _ => none) ext
    · exact applyRegs_lookup (createRegs true) (fun _ => none) ext
  rw [h]
  cases lastRegistered (createRegs mode) ext <;> rfl

/-- C10: `FileParserManager.parseFile` throws the "No parser found"
error exactly when `supportsExtension` is false; otherwise it
dispatches to the parser most recently registered for the extension
(registration order: MarkdownParser, Docs4LLMParser, PDFParser only
outside project mode, CanvasParser) — in particular "pdf" dispatches to
`PDFParser` outside project mode and to `Docs4LLMParser` in project
mode. -/
theorem C10_parse_dispatch :
    (∀ (mode : Bool) (ext : String),
       ((FileParserManager.create mode).parseDispatch ext
           = .error ("No parser found for file type: " ++ ext))
         ↔ (FileParserManager.create mode).supportsExtension ext = false)
    ∧ (∀ (mode : Bool) (ext : String),
         (FileParserManager.create mode).parsers ext
           = lastRegistered (createRegs mode) ext)
    ∧ (FileParserManager.create false).parseDispatch "pdf" = .ok .pdfParserKind
    ∧ (FileParserManager.create true).parseDispatch "pdf" = .ok .docs4llm := by
  refine ⟨?_, create_parsers_eq, ?_, ?_⟩
  · intro mode ext
    unfold FileParserManager.parseDispatch FileParserManager.supportsExtension
    cases h : (FileParserManager.create mode).parsers ext <;> simp [h]
  · rfl
  · rfl

/-- One tracker call either installs the eligible file it contributes or
leaves the state unchanged. -/
lemma trackerStep_eq (allowed : TFile → Bool) (st : Option TFile) (op : TrackerOp) :
    trackerStep allowed st op
      = match eligOf allowed op with
        | some f => some f
        | none => st := by
  cases op with
  | track file =>
    cases file with
    | none => simp [trackerStep, trackContextFile, eligOf, isAllowedOpt]
    | some f =>
      by_cases h : allowed f <;>
        simp [trackerStep, trackContextFile, eligOf, isAllowedOpt, h]
  | trackLeaf leaf =>
    cases hleaf : getLeafContextFile allowed leaf with
    | none =>
      simp [trackerStep, trackLeafContextFile, trackContextFile, eligOf, hleaf,
        isAllowedOpt]
    | some f =>
      by_cases h : allowed f <;>
        simp [trackerStep, trackLeafContextFile, trackContextFile, eligOf, hleaf,
          isAllowedOpt, h]
  | getActive a =>
    cases a with
    | none => simp [trackerStep, getActiveContextFile, eligOf, isAllowedOpt]
    | some f =>
      by_cases h : allowed f <;>
        simp [trackerStep, getActiveContextFile, trackContextFile, eligOf,
          isAllowedOpt, h]

/-- The tracker state after a call sequence is the most recently
contributed eligible file, or the initial state when none was
contributed. -/
lemma trackerRun_eq (allowed : TFile → Bool) (ops : List TrackerOp) :
    ∀ st : Option TFile,
      trackerRun allowed st ops
        = match lastEligible allowed ops with
          | some f => some f
          | none => st := by
  induction ops with
  | nil => intro st; rfl
  | cons op rest ih =>
    intro st
    have hrun : trackerRun allowed st (op :: rest)
        = trackerRun allowed (trackerStep allowed st op) rest := rfl
    rw [hrun, ih, trackerStep_eq]
    cases hrest : lastEligible allowed rest with
    | some f => simp [lastEligible, hrest]
    | none =>
      cases hop : eligOf allowed op with
      | some f => simp [lastEligible, hrest, hop]
      | none => simp [lastEligible, hrest, hop]

/-- C9: after any sequence of tracker calls the stored file is either
the initial state (nothing eligible was ever seen) or the most recently
seen context-eligible file; from a non-null state the tracker never
returns to null, so once `getLastActiveContextFile` has answered a file
it never answers null again; and `getActiveContextFile` returns the
current active file exactly when it is eligible and otherwise returns
the stored file with the stored state unchanged. -/
theorem C9_tracker_invariants (allowed : TFile → Bool) (st : Option TFile)
    (ops : List TrackerOp) (f : TFile) (a : Option TFile) :
    trackerRun allowed st ops
      = (match lastEligible allowed ops with
         | some g => some g
         | none => st)
    ∧ (∃ g : TFile,
        getLastActiveContextFile (trackerRun allowed (some f) ops) = some g)
    ∧ (getActiveContextFile allowed st a).1
        = (if isAllowedOpt allowed a then a else st)
    ∧ (getActiveContextFile allowed st a).2
        = (if isAllowedOpt allowed a then trackContextFile allowed st a else st) := by
  refine ⟨trackerRun_eq allowed ops st, ?_, ?_, ?_⟩
  · rw [trackerRun_eq]
    cases lastEligible allowed ops with
    | some g => exact ⟨g, rfl⟩
    | none => exact ⟨f, rfl⟩
  · by_cases h : isAllowedOpt allowed a <;> simp [getActiveContextFile, h]
  · by_cases h : isAllowedOpt allowed a <;> simp [getActiveContextFile, h]

/-- C1 counterexample: the second resolution of the PDF reads no file at
all, returns the previously computed resolution, and does not reflect
the changed underlying content — a cached resolution is served in place
of a fresh read. -/
theorem C1_counterexample :
    secondParse.readPaths = []
    ∧ secondParse.text = firstParse.text
    ∧ pdfConvW (vaultAfter "a.pdf") = some "parsed:v2"
    ∧ secondParse.text ≠ "parsed:v2" := by decide

/-- C1 amended: PDF resolution consults the content cache first — a
cache hit is returned as-is with no file read; a cache miss reads the
current content, converts it and caches the result; resolving the same
unchanged file twice therefore yields identical text, with the second
resolution served from the cache. -/
theorem C1_cache_first_resolution (pdf4llm : String → Option String)
    (vault : String → String) (cache : List (String × String))
    (path basename : String) :
    (∀ v, cacheGet cache path = some v →
        PDFParser.parseFile pdf4llm vault cache path basename = ⟨v, cache, []⟩)
    ∧ (cacheGet cache path = none →
        (PDFParser.parseFile pdf4llm vault cache path basename).readPaths = [path]
        ∧ ∀ r, pdf4llm (vault path) = some r →
            PDFParser.parseFile pdf4llm vault cache path basename
              = ⟨r, cacheSet cache path r, [path]⟩)
    ∧ (PDFParser.parseFile pdf4llm vault
          (PDFParser.parseFile pdf4llm vault cache path basename).cache
          path basename).text
        = (PDFParser.parseFile pdf4llm vault cache path basename).text := by
  refine ⟨?_, ?_, ?_⟩
  · intro v hv
    unfold PDFParser.parseFile
    rw [hv]
  · intro hnone
    constructor
    · simp only [PDFParser.parseFile, hnone]
      cases pdf4llm (vault path) <;> rfl
    · intro r hr
      simp only [PDFParser.parseFile, hnone, hr]
  · cases hc : cacheGet cache path with
    | some v =>
      simp only [PDFParser.parseFile, hc]
    | none =>
      cases hp : pdf4llm (vault path) with
      | some r =>
        simp only [PDFParser.parseFile, hc, hp]
        rw [show cacheGet (cacheSet cache path r) path = some r from by
          simp [cacheGet, cacheSet, List.find?]]
      | none =>
        simp only [PDFParser.parseFile, hc, hp]

/-- Witness for the amended C1 at a concrete warm cache: the hit is
served unchanged with no read. -/
theorem C1_cache_first_resolution_witness :
    cacheGet [("a.pdf", "hit")] "a.pdf" = some "hit"
    ∧ PDFParser.parseFile pdfConvW vaultBefore [("a.pdf", "hit")] "a.pdf" "a"
        = ⟨"hit", [("a.pdf", "hit")], []⟩ :=
  ⟨by decide,
    (C1_cache_first_resolution pdfConvW vaultBefore [("a.pdf", "hit")]
        "a.pdf" "a").1 "hit" (by decide)⟩

/-- C2 counterexample: with a failing document conversion, project-mode
resolution of a document does not degrade to an inline marker — the
whole `parseFile` call rejects with an error. -/
theorem C2_counterexample :
    Docs4LLMParser.parseFile docsFailW true [] (fun _ => "bin") "doc.docx"
      = .error "Empty response from docs4llm API" := by rfl

/-- C2 amended: PDF conversion failures degrade to an inline error
marker and the call returns normally, while a failed Docs4LLM
conversion throws — on a cache miss with an empty conversion result,
`Docs4LLMParser.parseFile` rejects with the "Empty response" error
instead of degrading. -/
theorem C2_degradation_split (pdf4llm : String → Option String)
    (docs4llm : String → String) (vault : String → String)
    (cache projCache : List (String × String)) (hasProject : Bool)
    (path basename : String) :
    (pdf4llm (vault path) = none → cacheGet cache path = none →
        PDFParser.parseFile pdf4llm vault cache path basename
          = ⟨"[Error: Could not extract content from PDF " ++ basename ++ "]",
             cache, [path]⟩)
    ∧ ((if hasProject then cacheGet projCache path else none) = none →
        docs4llm (vault path) = "" →
        Docs4LLMParser.parseFile docs4llm hasProject projCache vault path
          = .error "Empty response from docs4llm API") := by
  constructor
  · intro hfail hmiss
    simp only [PDFParser.parseFile, hmiss, hfail]
  · intro hmiss hfail
    unfold Docs4LLMParser.parseFile
    rw [hmiss]
    dsimp only
    rw [hfail]
    simp

/-- Witness for the amended C2 at concrete failing conversions. -/
theorem C2_degradation_split_witness :
    pdfFailW (vaultBefore "x.pdf") = none
    ∧ PDFParser.parseFile pdfFailW vaultBefore [] "x.pdf" "x"
        = ⟨"[Error: Could not extract content from PDF x]", [], ["x.pdf"]⟩ :=
  ⟨rfl,
    (C2_degradation_split pdfFailW docsFailW vaultBefore [] [] true
        "x.pdf" "x").1 rfl rfl⟩

/-- C3 counterexample: the saved context is not fully determined by the
context supplied to the edit — two different pre-edit contexts with the
very same supplied edit produce different saved contexts, because tags
and selected-text snippets are carried over from the pre-edit context
rather than replaced. -/
theorem C3_counterexample :
    handleEditSave (some ctxTagged) editW ≠ handleEditSave (some ctxEmpty) editW
    ∧ (handleEditSave (some ctxTagged) editW).tags = ctxTagged.tags
    ∧ (handleEditSave (some ctxTagged) editW).selectedTextContexts
        = ctxTagged.selectedTextContexts := by decide

/-- C3 amended: an edit replaces the notes, URLs and folders of the
attached context with the supplied ones, while the tags and the inline
selected-text snippets are carried over unchanged from the pre-edit
context (empty when there was none); the saved context depends on the
pre-edit context only through those two carried-over components. -/
theorem C3_partial_context_replacement (c : MessageContext)
    (context : EditedContext) (c1 c2 : MessageContext)
    (htags : c1.tags = c2.tags)
    (hsel : c1.selectedTextContexts = c2.selectedTextContexts) :
    handleEditSave (some c) context
      = { notes := context.notes, urls := context.urls, tags := c.tags,
          folders := context.folders,
          selectedTextContexts := c.selectedTextContexts }
    ∧ handleEditSave none context
      = { notes := context.notes, urls := context.urls, tags := [],
          folders := context.folders, selectedTextContexts := [] }
    ∧ handleEditSave (some c1) context = handleEditSave (some c2) context := by
  refine ⟨rfl, rfl, ?_⟩
  simp [handleEditSave, htags, hsel]

/-- Witness for the amended C3 at a concrete tagged pre-edit context. -/
theorem C3_partial_context_replacement_witness :
    ctxTagged.tags = ctxTagged.tags
    ∧ handleEditSave (some ctxTagged) editW
        = { notes := editW.notes, urls := editW.urls, tags := ctxTagged.tags,
            folders := editW.folders,
            selectedTextContexts := ctxTagged.selectedTextContexts } :=
  ⟨rfl,
    (C3_partial_context_replacement ctxTagged editW ctxTagged ctxTagged
        rfl rfl).1⟩

end Copilot
